import Mathlib

/-!
Verification of the go-erlang BERT/ETF codec (`encoder.go`, `bertrpc/decoder.go`).

Byte streams are modelled as `List Nat`, every element a byte value produced
by the source's writes. Go's `bytes.Buffer` reader semantics are embedded
faithfully: a `Read` into a `k`-byte slice returns `min k avail` bytes and a
`nil` error when at least one byte is available, and `(0, io.EOF)` when the
buffer is empty; slices passed to `Read` keep their previous (or zero) contents
in the positions that were not filled, which the source sometimes goes on to
use.
-/

/-- Decidable equality for `Except` results, so that concrete codec runs can
be checked by `decide`. -/
instance {ε α : Type} [DecidableEq ε] [DecidableEq α] : DecidableEq (Except ε α)
  | .error e, .error f =>
      if h : e = f then .isTrue (by rw [h]) else .isFalse (by simp [h])
  | .error _, .ok _ => .isFalse (by simp)
  | .ok _, .error _ => .isFalse (by simp)
  | .ok a, .ok b =>
      if h : a = b then .isTrue (by rw [h]) else .isFalse (by simp [h])

namespace GoErlang

/-! ## Tag catalogue (`encoder.go` constants) -/

def TagSmallInteger : Nat := 97
def TagInteger : Nat := 98
def TagSmallTuple : Nat := 104
def TagLargeTuple : Nat := 105
def TagList : Nat := 108
def TagBinary : Nat := 109
def TagAtomUTF8 : Nat := 118
def TagSmallAtomUTF8 : Nat := 119
def TagETFVersion : Nat := 131

/-- Modelled from the spec: the `bertrpc` package's constants file is not in
the sources; the legacy-atom tag value 100 is fixed by the external ETF format
and by the repository's test vectors (`{131,100,0,2,111,107}` decodes to
`"ok"`). -/
def TagDeprecatedAtom : Nat := 100

/-- Modelled from the spec: legacy String tag, value 107 fixed by ETF and by
the test vector `{131,107,0,5,...}` decoding to `"Hello"`. -/
def TagString : Nat := 107

/-- Modelled from the spec: Nil (empty-list / list terminator) tag, value 106
fixed by ETF; the encoder writes the literal byte 106 as a list terminator. -/
def TagNil : Nat := 106

/-- Modelled from the spec: BigInteger (SMALL_BIG_EXT) tag, value 110 fixed by
the external ETF format; layout per spec §3: 1-byte length N, 1-byte sign,
N little-endian magnitude bytes. -/
def TagBigInteger : Nat := 110

/-! ## Machine-integer helpers -/

/-- Go's `int32(x)` conversion: wrap into `[-2^31, 2^31)`. -/
def toInt32 (i : Int) : Int := (i + 2 ^ 31) % 2 ^ 32 - 2 ^ 31

/-- Go's wrapping signed 64-bit arithmetic: wrap into `[-2^63, 2^63)`. -/
def toWrap64 (i : Int) : Int := (i + 2 ^ 63) % 2 ^ 64 - 2 ^ 63

/-- Big-endian 2-byte rendering of a `uint16`-truncated length
(`binary.Write(buf, binary.BigEndian, uint16(n))`). -/
def be2 (n : Nat) : List Nat := [n / 256 % 256, n % 256]

/-- Big-endian 4-byte rendering of a `uint32`/`int32`-truncated value
(`binary.Write(buf, binary.BigEndian, ...)` on a 32-bit quantity). -/
def be4 (n : Nat) : List Nat :=
  [n / 2 ^ 24 % 256, n / 2 ^ 16 % 256, n / 2 ^ 8 % 256, n % 256]

/-- Recombine four big-endian bytes into the unsigned 32-bit value. -/
def beNat4 (b1 b2 b3 b4 : Nat) : Nat := ((b1 * 256 + b2) * 256 + b3) * 256 + b4

/-- `int32(binary.BigEndian.Uint32(bytes))`: reinterpret the unsigned 32-bit
value as signed. -/
def int32OfBE (b1 b2 b3 b4 : Nat) : Int :=
  if beNat4 b1 b2 b3 b4 < 2 ^ 31 then (beNat4 b1 b2 b3 b4 : Int)
  else (beNat4 b1 b2 b3 b4 : Int) - 2 ^ 32

/-! ## Encoder (`encoder.go`)

The encoder's input domain (Go `interface{}` values reaching `EncodeTo`'s
type switch) is embedded as the inductive `Term`:
`atom`/`str` carry the string's bytes, `int` is a value of Go type `int`
(64-bit), `int64` is a value of Go type `int64` (no case in the type switch:
it reaches the `reflect` default branch, whose kind is neither handled nor a
slice, so it fails as an unhandled type), `tuple` is `bert.Tuple`, and `list`
is a Go slice, which the default branch converts with `makeGenericSlice` and
encodes with `encodeList`. -/

inductive Term where
  | atom (s : List Nat)
  | str (s : List Nat)
  | int (i : Int)
  | int64 (i : Int)
  | tuple (ts : List Term)
  | list (ts : List Term)

/-- Encoder-side errors: the only failure in the embedded fragment is the
`reflect` default branch's "unhandled type" error (buffer writes in Go's
`bytes.Buffer` never fail). -/
inductive EncErr where
  | unhandledType
deriving DecidableEq, Repr

/-- `encodeAtom`: SmallAtomUTF8 with a 1-byte length for short atoms, else
AtomUTF8 with a 2-byte (`uint16`-truncated) big-endian length. -/
def encodeAtom (s : List Nat) : List Nat :=
  if s.length ≤ 255 then TagSmallAtomUTF8 :: s.length % 256 :: s
  else TagAtomUTF8 :: be2 s.length ++ s

/-- `encodeString`: always the Binary tag with a 4-byte big-endian length. -/
def encodeString (s : List Nat) : List Nat :=
  TagBinary :: be4 s.length ++ s

/-- `encodeInt`: SmallInteger with one payload byte for 0..255, else Integer
with the `int32` value written big-endian. The argument is the already
`int32`-converted value. -/
def encodeInt (i : Int) : List Nat :=
  if 0 ≤ i ∧ i ≤ 255 then [TagSmallInteger, i.toNat]
  else TagInteger :: be4 (i % 2 ^ 32).toNat

/-- Tuple header: SmallTuple with 1-byte arity when it fits, else LargeTuple
with a 4-byte (`int32`-truncated) big-endian arity. -/
def tupleHeader (n : Nat) : List Nat :=
  if n ≤ 255 then [TagSmallTuple, n % 256] else TagLargeTuple :: be4 n

mutual

/-- `EncodeTo`: the encoder's type switch. Go `int`/`int8`/.../`uint32` cases
all convert through `int32(t)` (modelled by the `.int` constructor and
`toInt32`); `int64` and `uint64` have no case and fail in the default branch;
slices are encoded as lists. On success the produced bytes are returned. -/
def EncodeTo : Term → Except EncErr (List Nat)
  | .atom s => .ok (encodeAtom s)
  | .str s => .ok (encodeString s)
  | .int i => .ok (encodeInt (toInt32 i))
  | .int64 _ => .error .unhandledType
  | .tuple ts =>
      match encodeElems ts with
      | .error e => .error e
      | .ok body => .ok (tupleHeader ts.length ++ body)
  | .list ts =>
      match encodeElems ts with
      | .error e => .error e
      | .ok body => .ok (TagList :: be4 ts.length ++ body ++ [TagNil])

/-- Element-wise encoding used by `encodeTuple` and `encodeList`: concatenate
the encodings, propagating the first error. -/
def encodeElems : List Term → Except EncErr (List Nat)
  | [] => .ok []
  | t :: ts =>
      match EncodeTo t with
      | .error e => .error e
      | .ok b =>
          match encodeElems ts with
          | .error e => .error e
          | .ok bs => .ok (b ++ bs)

end

/-! ## Decoder (`bertrpc/decoder.go`)

Each decode function consumes a prefix of the byte stream and returns the
decoded value together with the unread remainder. Errors are identified by
constructor, mirroring the source's distinct error values. -/

/-- Decoder-side error identities. `eof` is a propagated `io.EOF`; `range` is
the sentinel `ErrRange`; `badVersion` carries the wrong leading byte;
`badTag` is the "incorrect type" error; `truncated` covers the
"truncated data" / "cannot decode integer, only n bytes read" errors;
`bigIntLen` is "parse big integer error"; `noNil` is
"could not find nil: b"; `arity` is the tuple/field count mismatch. -/
inductive DErr where
  | eof
  | range
  | badVersion (b : Nat)
  | badTag
  | truncated
  | bigIntLen
  | noNil (b : Nat)
  | arity
deriving DecidableEq, Repr

/-- Wrapping accumulation of the BigInteger magnitude: Go's
`value += int64(d64 * B); B *= 256` loop over int64. -/
def bigMag : List Nat → Int → Int → Int
  | [], _, acc => acc
  | d :: ds, b, acc => bigMag ds (toWrap64 (b * 256)) (toWrap64 (acc + toWrap64 (d * b)))

/-- BigInteger value: accumulate the magnitude little-endian in wrapping
int64 arithmetic, then negate (again wrapping) when the sign byte is 1. -/
def bigIntValue (ds : List Nat) (sign : Nat) : Int :=
  if sign = 1 then toWrap64 (-(bigMag ds 1 0)) else bigMag ds 1 0

/-- `decodeInt`: tag dispatch over SmallInteger / Integer / BigInteger.
Faithful quirks of the source:
* SmallInteger tolerates `io.EOF` on the payload read and then returns
  `byte1[0]` — but `byte1` is the reused tag buffer, so on an empty stream
  the tag byte itself (97) is returned as the value with no error;
* Integer reads up to 4 bytes and fails with a byte-count error when fewer
  are available;
* BigInteger propagates `io.EOF` from the length/sign reads, and fails with
  its own error when fewer than N magnitude bytes arrive. -/
def decodeInt : List Nat → Except DErr (Int × List Nat)
  | [] => .error .eof
  | t :: rest =>
    if t = TagSmallInteger then
      match rest with
      | [] => .ok ((t : Int), [])
      | b :: r => .ok ((b : Int), r)
    else if t = TagInteger then
      match rest with
      | b1 :: b2 :: b3 :: b4 :: r => .ok (int32OfBE b1 b2 b3 b4, r)
      | _ => .error .truncated
    else if t = TagBigInteger then
      match rest with
      | n :: sgn :: r =>
          if r.length < n then .error .bigIntLen
          else .ok (bigIntValue (r.take n) sgn, r.drop n)
      | _ => .error .eof
    else .error .badTag

/-- `decodeString1`: 1-byte length, then exactly that many content bytes;
fewer available is the "truncated data" error. -/
def decodeString1 : List Nat → Except DErr (List Nat × List Nat)
  | [] => .error .eof
  | len :: rest =>
      if rest.length < len then .error .truncated
      else .ok (rest.take len, rest.drop len)

/-- `decodeString2`: 2-byte big-endian length, then the content. The source
does not check how many of the 2 length bytes were read, so a 1-byte stream
leaves the second (zero-initialised) buffer byte in place. -/
def decodeString2 : List Nat → Except DErr (List Nat × List Nat)
  | [] => .error .eof
  | [b1] =>
      if 0 < b1 * 256 then .error .truncated else .ok ([], [])
  | b1 :: b2 :: rest =>
      if rest.length < b1 * 256 + b2 then .error .truncated
      else .ok (rest.take (b1 * 256 + b2), rest.drop (b1 * 256 + b2))

/-- `decodeString4`: 4-byte big-endian length, then the content. As in
`decodeString2`, unread length-buffer bytes stay zero. -/
def decodeString4 : List Nat → Except DErr (List Nat × List Nat)
  | [] => .error .eof
  | b1 :: b2 :: b3 :: b4 :: rest =>
      if rest.length < beNat4 b1 b2 b3 b4 then .error .truncated
      else .ok (rest.take (beNat4 b1 b2 b3 b4), rest.drop (beNat4 b1 b2 b3 b4))
  | [b1] =>
      if 0 < beNat4 b1 0 0 0 then .error .truncated else .ok ([], [])
  | [b1, b2] =>
      if 0 < beNat4 b1 b2 0 0 then .error .truncated else .ok ([], [])
  | [b1, b2, b3] =>
      if 0 < beNat4 b1 b2 b3 0 then .error .truncated else .ok ([], [])

/-- UTF-8 bytes of a Unicode scalar value (Go's encoding used by
`string([]rune)`). -/
def utf8Enc (c : Nat) : List Nat :=
  if c < 128 then [c]
  else if c < 2048 then [192 + c / 64, 128 + c % 64]
  else if c < 65536 then [224 + c / 4096, 128 + c / 64 % 64, 128 + c % 64]
  else [240 + c / 262144, 128 + c / 4096 % 64, 128 + c / 64 % 64, 128 + c % 64]

/-- Go's `string([]rune)` conversion of one rune: invalid runes (negative,
surrogate, above U+10FFFF) become U+FFFD. -/
def runeBytes (r : Int) : List Nat :=
  if r < 0 then utf8Enc 65533
  else if 55296 ≤ r ∧ r ≤ 57343 then utf8Enc 65533
  else if 1114111 < r then utf8Enc 65533
  else utf8Enc r.toNat

/-- Go's `string([]rune)` conversion: concatenated UTF-8 bytes. -/
def runesToBytes : List Int → List Nat
  | [] => []
  | r :: rs => runeBytes r ++ runesToBytes rs

/-- `decodeNil`: read one byte, tolerate `io.EOF` (the fresh buffer then
holds 0), and require the Nil tag. -/
def decodeNil : List Nat → Except DErr (List Nat)
  | [] => if 0 = TagNil then .ok [] else .error (.noNil 0)
  | b :: r => if b = TagNil then .ok r else .error (.noNil b)

/-- The element loop of `decodeCharList`: decode `count` Integer terms, each
converted to a rune by Go's `rune(char)` i.e. `int32` wrap. -/
def decodeCharListElems : Nat → List Nat → Except DErr (List Int × List Nat)
  | 0, s => .ok ([], s)
  | n + 1, s =>
      match decodeInt s with
      | .error e => .error e
      | .ok (c, s') =>
          match decodeCharListElems n s' with
          | .error e => .error e
          | .ok (cs, s'') => .ok (toInt32 c :: cs, s'')

/-- `decodeCharList`: 4-byte count (with an explicit short-read check), then
`count` nested Integer terms as runes, then a mandatory Nil terminator. -/
def decodeCharList (s : List Nat) : Except DErr (List Int × List Nat) :=
  match s with
  | [] => .error .eof
  | b1 :: rest =>
      match rest with
      | b2 :: b3 :: b4 :: rest2 =>
          match decodeCharListElems (beNat4 b1 b2 b3 b4) rest2 with
          | .error e => .error e
          | .ok (cs, s') =>
              match decodeNil s' with
              | .error e => .error e
              | .ok s'' => .ok (cs, s'')
      | _ => .error .truncated

/-- `decodeString`: the five accepted text tags, all normalised to a plain
string (`string(data)` on bytes is the identity; on runes it is UTF-8
encoding). -/
def decodeString (s : List Nat) : Except DErr (List Nat × List Nat) :=
  match s with
  | [] => .error .eof
  | t :: rest =>
      if t = TagSmallAtomUTF8 then decodeString1 rest
      else if t = TagDeprecatedAtom ∨ t = TagAtomUTF8 ∨ t = TagString then decodeString2 rest
      else if t = TagBinary then decodeString4 rest
      else if t = TagList then
        match decodeCharList rest with
        | .error e => .error e
        | .ok (cs, r) => .ok (runesToBytes cs, r)
      else .error .badTag

/-- Decode target shapes reaching `decodeData`'s kind switch: an 8-bit signed
integer target, the wider signed integer targets (Int/Int16/Int32/Int64 all
share the `decodeInt` path), a plain string target, and an aggregate/record
target with `n` declared text-typed fields. -/
inductive Target where
  | int8
  | intT
  | strT
  | structT (n : Nat)
deriving DecidableEq, Repr

/-- Values produced by `decodeData` for the modelled targets. -/
inductive DVal where
  | int (i : Int)
  | str (s : List Nat)
  | fields (fs : List (List Nat))
deriving DecidableEq, Repr

/-- Modelled from the spec: the field loop of the (missing) `decodeStruct`:
"decode each field's tuple element against that field's declared
text-or-nested shape, in declared order" — here for the declared text-typed
fields of the aggregate target (§3). -/
def decodeStructFields : Nat → List Nat → Except DErr (List (List Nat) × List Nat)
  | 0, s => .ok ([], s)
  | n + 1, s =>
      match decodeString s with
      | .error e => .error e
      | .ok (v, s') =>
          match decodeStructFields n s' with
          | .error e => .error e
          | .ok (vs, s'') => .ok (v :: vs, s'')

/-- Modelled from the spec: `decodeStruct` is called from `decodeData` but its
body is not in the sources. Per spec §4.2: read the tag byte; it must be
SmallTuple or LargeTuple; read the arity; the arity must exactly equal the
number of declared target fields or fail immediately with a count-mismatch
error (no partial binding); then decode the fields in declared order. -/
def decodeStruct (n : Nat) (s : List Nat) : Except DErr (List (List Nat) × List Nat) :=
  match s with
  | [] => .error .eof
  | t :: rest =>
      if t = TagSmallTuple then
        match rest with
        | [] => .error .eof
        | a :: rest2 =>
            if a = n then decodeStructFields n rest2 else .error .arity
      else if t = TagLargeTuple then
        match rest with
        | b1 :: b2 :: b3 :: b4 :: rest2 =>
            if beNat4 b1 b2 b3 b4 = n then decodeStructFields n rest2 else .error .arity
        | _ => .error .eof
      else .error .badTag

/-- `decodeData`: dispatch on the reflected kind of the target. `Int8`
returns the sentinel `ErrRange` before any read; the other integer widths
share `decodeInt`; strings use `decodeString`; structs use `decodeStruct`. -/
def decodeData (tgt : Target) (s : List Nat) : Except DErr (DVal × List Nat) :=
  match tgt with
  | .int8 => .error .range
  | .intT =>
      match decodeInt s with
      | .error e => .error e
      | .ok (i, r) => .ok (.int i, r)
  | .strT =>
      match decodeString s with
      | .error e => .error e
      | .ok (v, r) => .ok (.str v, r)
  | .structT n =>
      match decodeStruct n s with
      | .error e => .error e
      | .ok (fs, r) => .ok (.fields fs, r)

/-- `Decode`: read one byte (empty stream propagates `io.EOF`), require the
ETF version marker, then decode the term against the target. -/
def Decode (s : List Nat) (tgt : Target) : Except DErr (DVal × List Nat) :=
  match s with
  | [] => .error .eof
  | b :: rest =>
      if b = TagETFVersion then decodeData tgt rest
      else .error (.badVersion b)

/-! ## Specification-side definitions -/

/-- The spec's exact base-256 least-significant-byte-first sum of the
BigInteger magnitude bytes (no wrapping); used to compare the source's
wrapping computation against the claimed value. -/
def base256 : List Nat → Nat
  | [] => 0
  | d :: ds => d + 256 * base256 ds

/-- Concatenated `encodeInt` renderings of a list of code points, the wire
body of a charlist. -/
def encodeInts : List Nat → List Nat
  | [] => []
  | c :: cs => encodeInt (c : Int) ++ encodeInts cs

/-- Concatenated `encodeString` renderings of a list of byte strings, the
wire body of a tuple of binaries. -/
def encodeStrs : List (List Nat) → List Nat
  | [] => []
  | s :: ss => encodeString s ++ encodeStrs ss

/-! ## Shared lemmas -/

theorem toInt32_eq_self {i : Int} (h1 : -2 ^ 31 ≤ i) (h2 : i < 2 ^ 31) :
    toInt32 i = i := by
  unfold toInt32
  omega

theorem toWrap64_eq_self {i : Int} (h1 : -2 ^ 63 ≤ i) (h2 : i < 2 ^ 63) :
    toWrap64 i = i := by
  unfold toWrap64
  omega

theorem decodeString1_spec (s rest : List Nat) (h : s.length ≤ 255) :
    decodeString1 (s.length % 256 :: (s ++ rest)) = .ok (s, rest) := by
  have hm : s.length % 256 = s.length := Nat.mod_eq_of_lt (by omega)
  simp only [decodeString1, hm, List.length_append]
  rw [if_neg (by omega)]
  rw [List.take_left, List.drop_left]

theorem decodeString2_spec (s rest : List Nat) (h : s.length ≤ 65535) :
    decodeString2 (s.length / 256 % 256 :: s.length % 256 :: (s ++ rest)) =
      .ok (s, rest) := by
  have hm : s.length / 256 % 256 * 256 + s.length % 256 = s.length := by omega
  simp only [decodeString2, hm, List.length_append]
  rw [if_neg (by omega)]
  rw [List.take_left, List.drop_left]

theorem decodeString4_spec (s rest : List Nat) (h : s.length < 2 ^ 32) :
    decodeString4 (be4 s.length ++ (s ++ rest)) = .ok (s, rest) := by
  have hm : beNat4 (s.length / 2 ^ 24 % 256) (s.length / 2 ^ 16 % 256)
      (s.length / 2 ^ 8 % 256) (s.length % 256) = s.length := by
    unfold beNat4; omega
  simp only [be4, List.cons_append, List.nil_append, decodeString4, hm,
    List.length_append]
  rw [if_neg (by omega)]
  rw [List.take_left, List.drop_left]

theorem decodeString_atom (s rest : List Nat) (h : s.length ≤ 65535) :
    decodeString (encodeAtom s ++ rest) = .ok (s, rest) := by
  unfold encodeAtom
  by_cases hs : s.length ≤ 255
  · rw [if_pos hs]
    simp only [List.cons_append, decodeString, TagSmallAtomUTF8, if_true,
      eq_self_iff_true]
    exact decodeString1_spec s rest hs
  · rw [if_neg hs]
    simp only [be2, List.cons_append, List.nil_append, decodeString,
      TagAtomUTF8, TagSmallAtomUTF8, TagDeprecatedAtom, TagString]
    norm_num
    exact decodeString2_spec s rest h

theorem decodeString_binary (s rest : List Nat) (h : s.length < 2 ^ 32) :
    decodeString (encodeString s ++ rest) = .ok (s, rest) := by
  simp only [encodeString, be4, List.cons_append, List.nil_append, decodeString,
    TagBinary, TagSmallAtomUTF8, TagAtomUTF8, TagDeprecatedAtom, TagString]
  norm_num
  have := decodeString4_spec s rest h
  simpa [be4] using this

theorem decodeInt_encodeInt (i : Int) (rest : List Nat)
    (h1 : -2 ^ 31 ≤ i) (h2 : i < 2 ^ 31) :
    decodeInt (encodeInt i ++ rest) = .ok (i, rest) := by
  unfold encodeInt
  by_cases hs : 0 ≤ i ∧ i ≤ 255
  · rw [if_pos hs]
    simp only [List.cons_append, List.nil_append, decodeInt, TagSmallInteger,
      if_true, eq_self_iff_true]
    rw [Int.toNat_of_nonneg hs.1]
  · rw [if_neg hs]
    have hiu : (((i % 2 ^ 32).toNat : Nat) : Int) = i % 2 ^ 32 :=
      Int.toNat_of_nonneg (Int.emod_nonneg i (by norm_num))
    have hval : int32OfBE ((i % 2 ^ 32).toNat / 2 ^ 24 % 256)
        ((i % 2 ^ 32).toNat / 2 ^ 16 % 256) ((i % 2 ^ 32).toNat / 2 ^ 8 % 256)
        ((i % 2 ^ 32).toNat % 256) = i := by
      unfold int32OfBE beNat4
      split
      · next hlt => omega
      · next hlt => omega
    simp only [be4, List.cons_append, List.nil_append, decodeInt,
      TagInteger, TagSmallInteger]
    norm_num
    exact hval

theorem decodeCharListElems_encode (cs : List Nat) (tail : List Nat)
    (h : ∀ c ∈ cs, c < 2 ^ 31) :
    decodeCharListElems cs.length (encodeInts cs ++ tail) =
      .ok (cs.map (fun c => (c : Int)), tail) := by
  induction cs with
  | nil => simp [encodeInts, decodeCharListElems]
  | cons c cs ih =>
      have hc : (c : Int) < 2 ^ 31 := by
        have := h c (by simp)
        exact_mod_cast this
      simp only [encodeInts, List.append_assoc, List.length_cons,
        decodeCharListElems]
      rw [decodeInt_encodeInt (c : Int) (encodeInts cs ++ tail) (by omega) hc]
      dsimp only
      rw [ih (fun x hx => h x (by simp [hx]))]
      dsimp only
      rw [toInt32_eq_self (by omega) hc]
      simp

theorem decodeCharList_core (cs : List Nat) (tail : List Nat)
    (hlen : cs.length < 2 ^ 32) (h : ∀ c ∈ cs, c < 2 ^ 31) :
    decodeCharList (be4 cs.length ++ (encodeInts cs ++ tail)) =
      match decodeNil tail with
      | .error e => .error e
      | .ok r => .ok (cs.map (fun c => (c : Int)), r) := by
  have hm : beNat4 (cs.length / 2 ^ 24 % 256) (cs.length / 2 ^ 16 % 256)
      (cs.length / 2 ^ 8 % 256) (cs.length % 256) = cs.length := by
    unfold beNat4; omega
  simp only [be4, List.cons_append, List.nil_append, decodeCharList, hm]
  rw [decodeCharListElems_encode cs tail h]

theorem decodeCharList_encode (cs : List Nat) (tail : List Nat)
    (hlen : cs.length < 2 ^ 32) (h : ∀ c ∈ cs, c < 2 ^ 31) :
    decodeCharList (be4 cs.length ++ (encodeInts cs ++ (TagNil :: tail))) =
      .ok (cs.map (fun c => (c : Int)), tail) := by
  rw [decodeCharList_core cs (TagNil :: tail) hlen h]
  simp [decodeNil, TagNil]

theorem base256_nonneg (ds : List Nat) : (0 : Int) ≤ (base256 ds : Int) := by
  exact_mod_cast Nat.zero_le _

theorem bigMag_exact (ds : List Nat) (k : Nat) (acc : Int)
    (hk : ds.length + k ≤ 8) (hb : ∀ d ∈ ds, d < 256) (hacc : 0 ≤ acc)
    (htot : acc + 256 ^ k * (base256 ds : Int) < 2 ^ 63) :
    bigMag ds (256 ^ k) acc = acc + 256 ^ k * (base256 ds : Int) := by
  induction ds generalizing k acc with
  | nil => simp [bigMag, base256]
  | cons d ds ih =>
      have hBpos : (0 : Int) < 256 ^ k := by positivity
      have hcast : (base256 (d :: ds) : Int) = (d : Int) + 256 * (base256 ds : Int) := by
        simp [base256]
      have hbase : (0 : Int) ≤ (base256 ds : Int) := base256_nonneg ds
      have hdpos : (0 : Int) ≤ (d : Int) := Int.natCast_nonneg d
      have hdBnn : (0 : Int) ≤ (d : Int) * 256 ^ k :=
        mul_nonneg hdpos (le_of_lt hBpos)
      have hdB : (d : Int) * 256 ^ k ≤ 256 ^ k * (base256 (d :: ds) : Int) := by
        rw [hcast]
        nlinarith
      have hdlt : (d : Int) * 256 ^ k < 2 ^ 63 := by
        calc (d : Int) * 256 ^ k ≤ 256 ^ k * (base256 (d :: ds) : Int) := hdB
        _ ≤ acc + 256 ^ k * (base256 (d :: ds) : Int) := by linarith
        _ < 2 ^ 63 := htot
      have hwd : toWrap64 ((d : Int) * 256 ^ k) = (d : Int) * 256 ^ k :=
        toWrap64_eq_self (by linarith) hdlt
      have haccd : 0 ≤ acc + (d : Int) * 256 ^ k := by linarith
      have haccdlt : acc + (d : Int) * 256 ^ k < 2 ^ 63 := by
        calc acc + (d : Int) * 256 ^ k ≤ acc + 256 ^ k * (base256 (d :: ds) : Int) := by
              linarith
        _ < 2 ^ 63 := htot
      have hwacc : toWrap64 (acc + (d : Int) * 256 ^ k) = acc + (d : Int) * 256 ^ k :=
        toWrap64_eq_self (by linarith) haccdlt
      cases ds with
      | nil =>
          have hstep : bigMag [d] ((256 : Int) ^ k) acc =
              toWrap64 (acc + toWrap64 ((d : Int) * 256 ^ k)) := rfl
          rw [hstep, hwd, hwacc, hcast]
          simp [base256]
          ring
      | cons e es =>
          have hk7 : k + 1 ≤ 7 := by
            simp only [List.length_cons] at hk
            omega
          have hwB : toWrap64 ((256 : Int) ^ k * 256) = (256 : Int) ^ (k + 1) := by
            rw [← pow_succ]
            have hp : (0 : Int) < 256 ^ (k + 1) := by positivity
            refine toWrap64_eq_self (by linarith) ?_
            calc (256 : Int) ^ (k + 1) ≤ 256 ^ 7 :=
                  pow_le_pow_right₀ (by norm_num) hk7
            _ < 2 ^ 63 := by norm_num
          have hrec := ih (k + 1) (acc + (d : Int) * 256 ^ k)
            (by simp only [List.length_cons] at hk ⊢; omega)
            (fun x hx => hb x (by simp [hx])) haccd
            (by rw [hcast] at htot
                push_cast at htot ⊢
                ring_nf at htot ⊢
                linarith)
          have hstep : bigMag (d :: e :: es) ((256 : Int) ^ k) acc =
              bigMag (e :: es) (toWrap64 ((256 : Int) ^ k * 256))
                (toWrap64 (acc + toWrap64 ((d : Int) * 256 ^ k))) := rfl
          rw [hstep, hwd, hwacc, hwB, hrec, hcast]
          ring

theorem decodeStructFields_encode (ss : List (List Nat)) (rest : List Nat)
    (h : ∀ s ∈ ss, s.length < 2 ^ 32) :
    decodeStructFields ss.length (encodeStrs ss ++ rest) = .ok (ss, rest) := by
  induction ss with
  | nil => simp [encodeStrs, decodeStructFields]
  | cons s ss ih =>
      simp only [encodeStrs, List.append_assoc, List.length_cons,
        decodeStructFields]
      rw [decodeString_binary s (encodeStrs ss ++ rest) (h s (by simp))]
      dsimp only
      rw [ih (fun x hx => h x (by simp [hx]))]

theorem encodeElems_strs (ss : List (List Nat)) :
    encodeElems (ss.map Term.str) = .ok (encodeStrs ss) := by
  induction ss with
  | nil => simp [encodeElems, encodeStrs]
  | cons s ss ih => simp [encodeElems, encodeStrs, EncodeTo, ih]

theorem decodeStruct_encodeTuple (ss : List (List Nat)) (rest : List Nat)
    (hlen : ss.length < 2 ^ 32) (h : ∀ s ∈ ss, s.length < 2 ^ 32) :
    decodeStruct ss.length (tupleHeader ss.length ++ (encodeStrs ss ++ rest)) =
      .ok (ss, rest) := by
  unfold tupleHeader
  by_cases hs : ss.length ≤ 255
  · rw [if_pos hs]
    have hm : ss.length % 256 = ss.length := Nat.mod_eq_of_lt (by omega)
    simp only [List.cons_append, List.nil_append, decodeStruct, TagSmallTuple,
      hm, if_true, eq_self_iff_true]
    exact decodeStructFields_encode ss rest h
  · rw [if_neg hs]
    have hm : beNat4 (ss.length / 2 ^ 24 % 256) (ss.length / 2 ^ 16 % 256)
        (ss.length / 2 ^ 8 % 256) (ss.length % 256) = ss.length := by
      unfold beNat4; omega
    simp only [be4, List.cons_append, List.nil_append, decodeStruct,
      TagLargeTuple, TagSmallTuple, hm]
    norm_num
    exact decodeStructFields_encode ss rest h

theorem decodeString_tag1 (r : List Nat) :
    decodeString (TagSmallAtomUTF8 :: r) = decodeString1 r := by
  simp only [decodeString]
  rw [if_pos trivial]

theorem decodeString_tag2 (t : Nat) (r : List Nat)
    (ht : t = TagDeprecatedAtom ∨ t = TagAtomUTF8 ∨ t = TagString) :
    decodeString (t :: r) = decodeString2 r := by
  have hne : t ≠ TagSmallAtomUTF8 := by
    rcases ht with h | h | h <;> subst h <;> decide
  simp only [decodeString]
  rw [if_neg hne, if_pos ht]

theorem decodeString_tagBin (r : List Nat) :
    decodeString (TagBinary :: r) = decodeString4 r := by
  simp only [decodeString]
  rw [if_neg (by decide), if_neg (by decide), if_pos trivial]

theorem decodeString_tagList (r : List Nat) :
    decodeString (TagList :: r) =
      match decodeCharList r with
      | .error e => .error e
      | .ok (cs, rr) => .ok (runesToBytes cs, rr) := by
  simp only [decodeString]
  rw [if_neg (by decide), if_neg (by decide), if_neg (by decide), if_pos trivial]

/-! ## Claims -/

/-- C2: for every integer input to the encoder in the signed 32-bit range,
a value in 0..255 is encoded as the SmallInteger tag with exactly one payload
byte, and every other value as the Integer tag followed by the value as 4
big-endian bytes. The embedded `encodeInt` takes nothing but the value, so
the choice is determined solely by the value. -/
theorem C2_canonical_int (i : Int) (h1 : -2 ^ 31 ≤ i) (h2 : i < 2 ^ 31) :
    (0 ≤ i ∧ i ≤ 255 → EncodeTo (.int i) = .ok [TagSmallInteger, i.toNat]) ∧
    (¬(0 ≤ i ∧ i ≤ 255) →
      EncodeTo (.int i) = .ok (TagInteger :: be4 (i % 2 ^ 32).toNat) ∧
      (be4 (i % 2 ^ 32).toNat).length = 4) := by
  have ht : toInt32 i = i := toInt32_eq_self h1 h2
  constructor
  · intro hs
    simp [EncodeTo, ht, encodeInt, hs]
  · intro hs
    refine ⟨?_, rfl⟩
    simp [EncodeTo, ht, encodeInt, hs]

/-- Witness for C2 at 42 (SmallInteger) and -256 (Integer). -/
theorem C2_canonical_int_witness :
    EncodeTo (.int 42) = .ok [TagSmallInteger, (42 : Int).toNat] ∧
    (EncodeTo (.int (-256)) = .ok (TagInteger :: be4 ((-256 : Int) % 2 ^ 32).toNat) ∧
      (be4 ((-256 : Int) % 2 ^ 32).toNat).length = 4) :=
  ⟨(C2_canonical_int 42 (by norm_num) (by norm_num)).1 (by norm_num),
    (C2_canonical_int (-256) (by norm_num) (by norm_num)).2 (by norm_num)⟩

/-- C3 counterexample: the Go value `int(2^31)` lies outside the signed
32-bit range, yet the encoder succeeds, silently wrapping it through the
`int32` conversion to -2^31 and writing the Integer form of the wrapped
value; no error is produced. -/
theorem C3_counterexample :
    EncodeTo (.int (2 ^ 31)) = .ok [TagInteger, 128, 0, 0, 0] ∧
    toInt32 (2 ^ 31) = -(2 ^ 31) := by
  constructor
  · have h32 : toInt32 2147483648 = -2147483648 := by norm_num [toInt32]
    have henc : encodeInt (-2147483648) = [TagInteger, 128, 0, 0, 0] := by
      unfold encodeInt
      rw [if_neg (by norm_num)]
      simp only [be4]
      decide
    simp [EncodeTo, h32, henc]
  · norm_num [toInt32]

/-- C3 (amended): inputs of Go type `int64` (absent from the encoder's type
switch) fail with the unhandled-type error, but an integer passed as Go type
`int` is first wrapped by the `int32` conversion, so a value outside the
signed 32-bit range is encoded, without error, exactly like its wrapped
32-bit value. -/
theorem C3_int64_rejected_int_wraps (i : Int) :
    EncodeTo (.int64 i) = .error .unhandledType ∧
    EncodeTo (.int i) = EncodeTo (.int (toInt32 i)) ∧
    ∃ bs, EncodeTo (.int i) = .ok bs := by
  have hlo : -2 ^ 31 ≤ toInt32 i := by unfold toInt32; omega
  have hhi : toInt32 i < 2 ^ 31 := by unfold toInt32; omega
  refine ⟨rfl, ?_, ⟨encodeInt (toInt32 i), rfl⟩⟩
  simp [EncodeTo, toInt32_eq_self hlo hhi]

/-- C4: decoding into an 8-bit signed integer target always fails with the
distinct `ErrRange` identity: `decodeData` returns it for every stream
(including the empty one, showing no term byte is read first), and the
top-level `Decode` returns it for every version-prefixed stream. -/
theorem C4_int8_always_range (s : List Nat) :
    decodeData .int8 s = .error .range ∧
    Decode (TagETFVersion :: s) .int8 = .error .range :=
  ⟨rfl, rfl⟩

/-- C9 at the failing input and at the checked reads: a SmallInteger tag with
no payload byte decodes, with no error, to 97 — the stale tag byte left in
the reused read buffer — instead of failing; the Integer payload, the
length-prefixed Binary content, and the SmallAtomUTF8 content reads do fail
on short data; and end-of-stream right after an exactly-satisfied
length-delimited read is a success. -/
theorem C9_truncation_eval :
    Decode [131, 97] .intT = .ok (.int 97, []) ∧
    Decode [131, 98, 0, 1] .intT = .error .truncated ∧
    Decode [131, 109, 0, 0, 0, 5, 72] .strT = .error .truncated ∧
    Decode [131, 119, 3, 111, 107] .strT = .error .truncated ∧
    Decode [131, 109, 0, 0, 0, 2, 72, 105] .strT = .ok (.str [72, 105], []) := by
  decide

/-- C10: a successful encoding never starts with the ETF version marker —
its first byte is the term's own wire tag — so the encoder's output alone is
rejected by the top-level decoder with a version-mismatch error. -/
theorem C10_no_version_marker (t : Term) (bs : List Nat) (tgt : Target)
    (h : EncodeTo t = .ok bs) :
    ∃ b rest, bs = b :: rest ∧ b ≠ TagETFVersion ∧
      Decode bs tgt = .error (.badVersion b) := by
  have hhead : ∃ b rest, bs = b :: rest ∧ b ≠ TagETFVersion := by
    cases t with
    | atom s =>
        simp only [EncodeTo, Except.ok.injEq] at h
        subst h
        unfold encodeAtom
        split
        · exact ⟨TagSmallAtomUTF8, _, rfl, by decide⟩
        · exact ⟨TagAtomUTF8, _, rfl, by decide⟩
    | str s =>
        simp only [EncodeTo, Except.ok.injEq] at h
        subst h
        exact ⟨TagBinary, _, rfl, by decide⟩
    | int i =>
        simp only [EncodeTo, Except.ok.injEq] at h
        subst h
        unfold encodeInt
        split
        · exact ⟨TagSmallInteger, _, rfl, by decide⟩
        · exact ⟨TagInteger, _, rfl, by decide⟩
    | int64 i => simp only [EncodeTo] at h; simp at h
    | tuple ts =>
        simp only [EncodeTo] at h
        cases heq : encodeElems ts with
        | error e => rw [heq] at h; simp at h
        | ok body =>
            rw [heq] at h
            simp only [Except.ok.injEq] at h
            subst h
            unfold tupleHeader
            split
            · exact ⟨TagSmallTuple, _, rfl, by decide⟩
            · exact ⟨TagLargeTuple, _, rfl, by decide⟩
    | list ts =>
        simp only [EncodeTo] at h
        cases heq : encodeElems ts with
        | error e => rw [heq] at h; simp at h
        | ok body =>
            rw [heq] at h
            simp only [Except.ok.injEq] at h
            subst h
            exact ⟨TagList, _, rfl, by decide⟩
  obtain ⟨b, rest, hbs, hb⟩ := hhead
  refine ⟨b, rest, hbs, hb, ?_⟩
  subst hbs
  simp [Decode, hb]

/-- C5: all five accepted wire text tags normalise to the identical plain
string result: for fixed content bytes, the SmallAtomUTF8, DeprecatedAtom,
AtomUTF8, String, and Binary forms each decode to exactly those bytes with
the stream consumed, and a charlist whose code points render (under Go's
rune-to-string conversion) to the same bytes decodes to them as well. -/
theorem C5_text_normalization (s : List Nat) :
    (s.length ≤ 255 →
      decodeString (TagSmallAtomUTF8 :: s.length :: s) = .ok (s, [])) ∧
    (s.length ≤ 65535 →
      decodeString (TagDeprecatedAtom :: (be2 s.length ++ s)) = .ok (s, []) ∧
      decodeString (TagAtomUTF8 :: (be2 s.length ++ s)) = .ok (s, []) ∧
      decodeString (TagString :: (be2 s.length ++ s)) = .ok (s, [])) ∧
    (s.length < 2 ^ 32 →
      decodeString (TagBinary :: (be4 s.length ++ s)) = .ok (s, [])) ∧
    (∀ cs : List Nat, cs.length < 2 ^ 32 → (∀ c ∈ cs, c < 2 ^ 31) →
      runesToBytes (cs.map fun c => (c : Int)) = s →
      decodeString (TagList :: (be4 cs.length ++ encodeInts cs ++ [TagNil])) =
        .ok (s, [])) := by
  refine ⟨?_, ?_, ?_, ?_⟩
  · intro h
    rw [decodeString_tag1]
    have h1 := decodeString1_spec s [] h
    rw [Nat.mod_eq_of_lt (by omega), List.append_nil] at h1
    exact h1
  · intro h
    have h2 := decodeString2_spec s [] h
    rw [List.append_nil] at h2
    refine ⟨?_, ?_, ?_⟩ <;>
      · rw [decodeString_tag2 _ _ (by tauto)]
        simpa [be2] using h2
  · intro h
    rw [decodeString_tagBin]
    have h4 := decodeString4_spec s [] h
    rw [List.append_nil] at h4
    simpa [be4] using h4
  · intro cs hlen hc hren
    rw [decodeString_tagList]
    have hcl := decodeCharList_encode cs [] hlen hc
    rw [show be4 cs.length ++ encodeInts cs ++ [TagNil] =
      be4 cs.length ++ (encodeInts cs ++ (TagNil :: [])) by simp]
    rw [hcl]
    dsimp only
    rw [hren]

/-- Witness for C5 with content "ok" under all five tags and as a charlist. -/
theorem C5_text_normalization_witness :
    decodeString [119, 2, 111, 107] = .ok ([111, 107], []) ∧
    decodeString [100, 0, 2, 111, 107] = .ok ([111, 107], []) ∧
    decodeString [118, 0, 2, 111, 107] = .ok ([111, 107], []) ∧
    decodeString [107, 0, 2, 111, 107] = .ok ([111, 107], []) ∧
    decodeString [109, 0, 0, 0, 2, 111, 107] = .ok ([111, 107], []) ∧
    decodeString [108, 0, 0, 0, 2, 97, 111, 97, 107, 106] = .ok ([111, 107], []) := by
  have h := C5_text_normalization [111, 107]
  have h2 := h.2.1 (by norm_num)
  refine ⟨?_, ?_, ?_, ?_, ?_, ?_⟩
  · simpa using h.1 (by norm_num)
  · simpa [be2] using h2.1
  · simpa [be2] using h2.2.1
  · simpa [be2] using h2.2.2
  · simpa [be4] using h.2.2.1 (by norm_num)
  · have := h.2.2.2 [111, 107] (by norm_num) (by decide) (by decide)
    simpa [be4, encodeInts, encodeInt, TagNil] using this

/-- C6 (with the spec-modelled `decodeStruct`): a wire tuple whose arity
differs from the number of declared target fields fails with the
count-mismatch error regardless of the tuple's content, while a tuple with
matching arity decodes each field from the tuple elements in declared
order. -/
theorem C6_arity (n a : Nat) (rest : List Nat) (ss : List (List Nat))
    (hmis : a ≠ n) (hs : ∀ s ∈ ss, s.length < 2 ^ 32) :
    decodeStruct n (TagSmallTuple :: a :: rest) = .error .arity ∧
    decodeStruct ss.length
      (TagSmallTuple :: ss.length :: (encodeStrs ss ++ rest)) = .ok (ss, rest) := by
  constructor
  · simp only [decodeStruct]
    rw [if_pos trivial, if_neg hmis]
  · simp only [decodeStruct]
    rw [if_pos trivial, if_pos trivial]
    exact decodeStructFields_encode ss rest hs

set_option maxRecDepth 4000 in
/-- Witness for C6: the repository's `TestFailOnLengthMismatch` /
`TestDecodeTuple2` vector — the 2-element tuple ("error", "not_found") —
fails against a 3-field target and decodes in order against a 2-field
target. -/
theorem C6_arity_witness :
    decodeStruct 3 (TagSmallTuple :: 2 ::
      [100, 0, 5, 101, 114, 114, 111, 114, 100, 0, 9, 110, 111, 116, 95,
        102, 111, 117, 110, 100]) = .error .arity ∧
    decodeStruct 2 (TagSmallTuple :: 2 ::
      (encodeStrs [[101, 114, 114, 111, 114],
        [110, 111, 116, 95, 102, 111, 117, 110, 100]] ++ [])) =
      .ok ([[101, 114, 114, 111, 114],
        [110, 111, 116, 95, 102, 111, 117, 110, 100]], []) ∧
    Decode [131, 104, 2, 100, 0, 5, 101, 114, 114, 111, 114, 100, 0, 9, 110,
      111, 116, 95, 102, 111, 117, 110, 100] (.structT 3) = .error .arity ∧
    Decode [131, 104, 2, 100, 0, 5, 101, 114, 114, 111, 114, 100, 0, 9, 110,
      111, 116, 95, 102, 111, 117, 110, 100] (.structT 2) =
      .ok (.fields [[101, 114, 114, 111, 114],
        [110, 111, 116, 95, 102, 111, 117, 110, 100]], []) := by
  refine ⟨?_, ?_, by decide, by decide⟩
  · exact (C6_arity 3 2
      [100, 0, 5, 101, 114, 114, 111, 114, 100, 0, 9, 110, 111, 116, 95,
        102, 111, 117, 110, 100] [] (by decide) (by decide)).1
  · exact (C6_arity 2 5 []
      [[101, 114, 114, 111, 114], [110, 111, 116, 95, 102, 111, 117, 110, 100]]
      (by decide) (by decide)).2

set_option maxRecDepth 4000 in
/-- C7 counterexample: a BigInteger with 9 magnitude bytes encoding 2^64
decodes to 0 because the source accumulates in wrapping 64-bit arithmetic
(the positional multiplier wraps to 0 at the ninth byte); the claimed
base-256 sum of the magnitude bytes is 2^64, not 0. -/
theorem C7_counterexample :
    decodeInt [TagBigInteger, 9, 0, 0, 0, 0, 0, 0, 0, 0, 0, 1] = .ok (0, []) ∧
    base256 [0, 0, 0, 0, 0, 0, 0, 0, 1] = 18446744073709551616 ∧
    (18446744073709551616 : Int) ≠ 0 := by
  refine ⟨by decide, by norm_num [base256], by norm_num⟩

/-- C7 (amended): for at most 8 magnitude bytes whose base-256
least-significant-byte-first sum is below 2^63, the BigInteger decode
returns exactly that sum, negated precisely when the sign byte equals 1
(sign/magnitude, never two's-complement); larger magnitudes overflow the
wrapping 64-bit accumulation. -/
theorem C7_bigint_value (ds : List Nat) (sgn : Nat) (rest : List Nat)
    (hN : ds.length ≤ 8) (hb : ∀ d ∈ ds, d < 256)
    (hv : (base256 ds : Int) < 2 ^ 63) :
    decodeInt (TagBigInteger :: ds.length :: sgn :: (ds ++ rest)) =
      .ok (if sgn = 1 then -(base256 ds : Int) else (base256 ds : Int), rest) := by
  have hmag : bigMag ds 1 0 = (base256 ds : Int) := by
    have h := bigMag_exact ds 0 0 (by omega) hb le_rfl (by simpa using hv)
    simpa using h
  have hnn := base256_nonneg ds
  have hlt : ¬ ((ds ++ rest).length < ds.length) := by
    rw [List.length_append]
    omega
  simp only [decodeInt]
  rw [if_pos trivial, if_neg hlt, List.take_left, List.drop_left]
  rw [if_neg (show TagBigInteger ≠ TagSmallInteger by decide),
      if_neg (show TagBigInteger ≠ TagInteger by decide)]
  unfold bigIntValue
  rw [hmag]
  split
  · next hsgn =>
      rw [toWrap64_eq_self (by linarith) (by linarith)]
  · next hsgn =>
      rfl

/-- Witness for C7 at the spec's two examples: `{N=1, sign=1, byte=5}`
decodes to -5 and `{N=2, sign=0, bytes=[0,1]}` decodes to 256. -/
theorem C7_bigint_value_witness :
    decodeInt [110, 1, 1, 5] = .ok (-5, []) ∧
    decodeInt [110, 2, 0, 0, 1] = .ok (256, []) := by
  constructor
  · have h := C7_bigint_value [5] 1 [] (by norm_num) (by decide)
      (by norm_num [base256])
    simpa [base256] using h
  · have h := C7_bigint_value [0, 1] 0 [] (by norm_num) (by decide)
      (by norm_num [base256])
    simpa [base256] using h

/-- C8: decoding a List wire form into a text target reads the 4-byte count,
decodes exactly `count` nested Integer terms into code points, concatenates
their rendering, and then demands one trailing Nil terminator: with the
terminator the call succeeds, while any other trailing byte — or
end-of-stream, where the fresh zeroed read buffer is inspected — fails with
the missing-Nil error even though all `count` elements were read. -/
theorem C8_charlist_terminator (cs : List Nat) (rest : List Nat) (b : Nat)
    (hlen : cs.length < 2 ^ 32) (h : ∀ c ∈ cs, c < 2 ^ 31) :
    decodeString (TagList :: (be4 cs.length ++ (encodeInts cs ++ (TagNil :: rest)))) =
      .ok (runesToBytes (cs.map fun c => (c : Int)), rest) ∧
    (b ≠ TagNil →
      decodeString (TagList :: (be4 cs.length ++ (encodeInts cs ++ (b :: rest)))) =
        .error (.noNil b)) ∧
    decodeString (TagList :: (be4 cs.length ++ (encodeInts cs ++ []))) =
      .error (.noNil 0) := by
  refine ⟨?_, ?_, ?_⟩
  · rw [decodeString_tagList, decodeCharList_encode cs rest hlen h]
  · intro hb
    rw [decodeString_tagList, decodeCharList_core cs (b :: rest) hlen h]
    simp [decodeNil, hb]
  · rw [decodeString_tagList, decodeCharList_core cs [] hlen h]
    simp [decodeNil, TagNil]

/-- Witness for C8 with the charlist "Hi": terminated decodes to "Hi";
a 99 byte in place of Nil, or end-of-stream, fails with the missing-Nil
error. -/
theorem C8_charlist_terminator_witness :
    decodeString [108, 0, 0, 0, 2, 97, 72, 97, 105, 106] = .ok ([72, 105], []) ∧
    decodeString [108, 0, 0, 0, 2, 97, 72, 97, 105, 99] = .error (.noNil 99) ∧
    decodeString [108, 0, 0, 0, 2, 97, 72, 97, 105] = .error (.noNil 0) := by
  have h := C8_charlist_terminator [72, 105] [] 99 (by norm_num) (by decide)
  refine ⟨?_, ?_, ?_⟩
  · simpa [be4, encodeInts, encodeInt, TagNil, TagList, runesToBytes, runeBytes,
      utf8Enc] using h.1
  · simpa [be4, encodeInts, encodeInt, TagNil, TagList] using h.2.1 (by decide)
  · simpa [be4, encodeInts, encodeInt, TagList] using h.2.2

/-- C1 counterexample: the list holding the single text "a" is a value of
the supported domain and encodes successfully, but the decoder has no
sequence target: every target kind rejects the produced stream (the string
target reaches the charlist path and fails on the Binary element tag, the
integer and record targets reject the List tag, and the 8-bit target always
fails), so no decode yields a value equal to the original list. -/
theorem C1_counterexample :
    EncodeTo (.list [.str [97]]) = .ok [108, 0, 0, 0, 1, 109, 0, 0, 0, 1, 97, 106] ∧
    Decode [131, 108, 0, 0, 0, 1, 109, 0, 0, 0, 1, 97, 106] .strT = .error .badTag ∧
    Decode [131, 108, 0, 0, 0, 1, 109, 0, 0, 0, 1, 97, 106] .intT = .error .badTag ∧
    Decode [131, 108, 0, 0, 0, 1, 109, 0, 0, 0, 1, 97, 106] (.structT 1) = .error .badTag ∧
    Decode [131, 108, 0, 0, 0, 1, 109, 0, 0, 0, 1, 97, 106] .int8 = .error .range := by
  refine ⟨rfl, by decide, by decide, by decide, rfl⟩

/-- C1 (amended): encode-then-decode into the matching target recovers the
original value for atoms (text content into a text target), strings,
integers in the signed 32-bit range, and tuples of strings into a
matching-arity record target. -/
theorem C1_roundtrip :
    (∀ s : List Nat, s.length ≤ 65535 →
      EncodeTo (.atom s) = .ok (encodeAtom s) ∧
      Decode (TagETFVersion :: encodeAtom s) .strT = .ok (.str s, [])) ∧
    (∀ s : List Nat, s.length < 2 ^ 32 →
      EncodeTo (.str s) = .ok (encodeString s) ∧
      Decode (TagETFVersion :: encodeString s) .strT = .ok (.str s, [])) ∧
    (∀ i : Int, -2 ^ 31 ≤ i → i < 2 ^ 31 →
      EncodeTo (.int i) = .ok (encodeInt i) ∧
      Decode (TagETFVersion :: encodeInt i) .intT = .ok (.int i, [])) ∧
    (∀ ss : List (List Nat), ss.length < 2 ^ 32 → (∀ s ∈ ss, s.length < 2 ^ 32) →
      ∃ bs, EncodeTo (.tuple (ss.map Term.str)) = .ok bs ∧
        Decode (TagETFVersion :: bs) (.structT ss.length) = .ok (.fields ss, [])) := by
  refine ⟨?_, ?_, ?_, ?_⟩
  · intro s h
    refine ⟨rfl, ?_⟩
    have hd := decodeString_atom s [] h
    rw [List.append_nil] at hd
    simp [Decode, decodeData, hd]
  · intro s h
    refine ⟨rfl, ?_⟩
    have hd := decodeString_binary s [] h
    rw [List.append_nil] at hd
    simp [Decode, decodeData, hd]
  · intro i h1 h2
    constructor
    · simp [EncodeTo, toInt32_eq_self h1 h2]
    · have hd := decodeInt_encodeInt i [] h1 h2
      rw [List.append_nil] at hd
      simp [Decode, decodeData, hd]
  · intro ss hlen hs
    refine ⟨tupleHeader ss.length ++ encodeStrs ss, ?_, ?_⟩
    · simp [EncodeTo, encodeElems_strs ss]
    · have hd := decodeStruct_encodeTuple ss [] hlen hs
      rw [List.append_nil] at hd
      simp [Decode, decodeData, hd]

/-- Witness for C1 at the atom "ok", the string "Hi", the integer -256, and
the tuple ("e", "f"). -/
theorem C1_roundtrip_witness :
    Decode (TagETFVersion :: encodeAtom [111, 107]) .strT = .ok (.str [111, 107], []) ∧
    Decode (TagETFVersion :: encodeString [72, 105]) .strT = .ok (.str [72, 105], []) ∧
    Decode (TagETFVersion :: encodeInt (-256)) .intT = .ok (.int (-256), []) ∧
    (∃ bs, EncodeTo (.tuple ([[101], [102]].map Term.str)) = .ok bs ∧
      Decode (TagETFVersion :: bs) (.structT 2) = .ok (.fields [[101], [102]], [])) := by
  refine ⟨(C1_roundtrip.1 [111, 107] (by norm_num)).2,
    (C1_roundtrip.2.1 [72, 105] (by norm_num)).2,
    (C1_roundtrip.2.2.1 (-256) (by norm_num) (by norm_num)).2, ?_⟩
  have h := C1_roundtrip.2.2.2 [[101], [102]] (by norm_num) (by decide)
  simpa using h

/-- Witness for C10 at the term `int 5`, whose encoding is `[97, 5]`. -/
theorem C10_no_version_marker_witness :
    EncodeTo (.int 5) = .ok [TagSmallInteger, 5] ∧
    (∃ b rest, [TagSmallInteger, 5] = b :: rest ∧ b ≠ TagETFVersion ∧
      Decode [TagSmallInteger, 5] .intT = .error (.badVersion b)) := by
  have h : EncodeTo (.int 5) = .ok [TagSmallInteger, 5] := rfl
  exact ⟨h, C10_no_version_marker (.int 5) [TagSmallInteger, 5] .intT h⟩

end GoErlang
